import Mathlib

/-!
Verification of the compton compositor core against its specification.

The development shallowly embeds the parts of the C source relevant to the
checked properties:

* `src/unnamed/part_001` (the window module: opacity target computation,
  window regions, leader resolution, window lifecycle and the id-index);
* `src/src/compton.c` (the legacy session: fade stepping, paint preprocess,
  restacking, background blur, damage handling and the redirect controller).

Machine doubles are modelled as rationals; C unsigned 32-bit opacities are
modelled as naturals bounded by 0xffffffff.  A handful of one-line helpers
live in headers that are not part of the sources (`common.h`, `win.h`);
those are modelled from the spec and marked as such in their doc comments.
-/

namespace Compton

/-- Window lifecycle states, `winstate_t` of the window module. -/
inductive WState
  | UNMAPPED
  | MAPPING
  | MAPPED
  | FADING
  | UNMAPPING
  | DESTROYING
  deriving DecidableEq, Repr

/-- Frame margins, `margin_t` (C `int` fields). -/
structure Margin where
  top : ℤ
  left : ℤ
  right : ℤ
  bottom : ℤ
  deriving DecidableEq, Repr

/-- The window record of the window module (`struct win` of part_001),
restricted to the fields consulted by the verified functions.  `opacity`
and `opacity_tgt` are C doubles in [0,1], modelled as rationals;
`opacity_prop` is the raw 32-bit `_NET_WM_WINDOW_OPACITY` value.
`in_index` models presence of the node in the uthash id-index
(`HASH_ADD`/`HASH_DEL`): the hash stores pointers to stack nodes, so hash
membership is a per-node fact. -/
structure Win where
  id : ℕ
  state : WState
  opacity : ℚ
  opacity_tgt : ℚ
  in_index : Bool
  input_only : Bool
  has_opacity_prop : Bool
  opacity_prop : ℕ
  window_type : ℕ
  focused : Bool
  g_width : ℕ
  g_height : ℕ
  frame_extents : Margin
  client_win : ℕ
  leader : ℕ
  cache_leader : ℕ
  deriving DecidableEq, Repr

/-- The defaults of `win_def` in `add_win`: a fresh window starts
`WSTATE_UNMAPPED` with zero opacity and target, no client, no leader and an
empty leader cache. -/
def win_def : Win where
  id := 0
  state := WState.UNMAPPED
  opacity := 0
  opacity_tgt := 0
  in_index := true
  input_only := false
  has_opacity_prop := false
  opacity_prop := 4294967295
  window_type := 0
  focused := false
  g_width := 0
  g_height := 0
  frame_extents := ⟨0, 0, 0, 0⟩
  client_win := 0
  leader := 0
  cache_leader := 0

/-- Session options consulted by `win_calc_opacity_target`
(`ps->o.*`).  `wintype_opacity t = none` models
`safe_isnan(ps->o.wintype_option[t].opacity)` being true (no per-type
default configured). -/
structure Options where
  inactive_opacity_override : Bool
  inactive_opacity : ℚ
  active_opacity : ℚ
  wintype_opacity : ℕ → Option ℚ

/-- Modelled from the spec: the constant `OPAQUE` (0xffffffff), defined in a
header not under src; the spec fixes both the `_NET_WM_WINDOW_OPACITY` range
[0, 0xFFFFFFFF] and that the property value is divided by 0xFFFFFFFF. -/
def opaqueVal : ℚ := 4294967295

/-- `win_calc_opacity_target` of part_001, line for line: UNMAPPED,
UNMAPPING and DESTROYING force 0; otherwise the base opacity comes from the
`_NET_WM_WINDOW_OPACITY` property, then the window-type default, then the
focus-derived defaults; finally `inactive_opacity_override` overrides the
base for unfocused windows.  `focused_real` is the value of
`win_is_focused_real(ps, w)`, which the claim distinguishes from the
`focused` flag. -/
def win_calc_opacity_target (o : Options) (w : Win) (focused_real : Bool) : ℚ :=
  if w.state = WState.UNMAPPED then 0
  else if w.state = WState.UNMAPPING ∨ w.state = WState.DESTROYING then 0
  else
    let opacity : ℚ :=
      if w.has_opacity_prop then (w.opacity_prop : ℚ) / opaqueVal
      else
        match o.wintype_opacity w.window_type with
        | some v => v
        | none =>
          if focused_real then o.active_opacity
          else if !w.focused then o.inactive_opacity
          else 1
    if o.inactive_opacity_override ∧ !w.focused then o.inactive_opacity else opacity

/-- The claim's priority order for the opacity target, first match wins:
destroyed/unmapping states force 0; then the inactive override; then the
opacity property; then the window-type default; then active/inactive by
focus; else 1. -/
def opacity_target_claim (o : Options) (w : Win) (focused_real : Bool) : ℚ :=
  if w.state = WState.UNMAPPED ∨ w.state = WState.UNMAPPING ∨ w.state = WState.DESTROYING then 0
  else if o.inactive_opacity_override ∧ !w.focused then o.inactive_opacity
  else if w.has_opacity_prop then (w.opacity_prop : ℚ) / opaqueVal
  else
    match o.wintype_opacity w.window_type with
    | some v => v
    | none =>
      if focused_real then o.active_opacity
      else if !w.focused then o.inactive_opacity
      else 1

/-- Claim C1: the computed opacity target is 0 in the UNMAPPED, UNMAPPING
and DESTROYING states, and otherwise agrees with the claimed priority
order (inactive override first, then the opacity property, then the
window-type default, then active/inactive/1 by focus). -/
theorem win_calc_opacity_target_matches_claim (o : Options) (w : Win)
    (focused_real : Bool) :
    win_calc_opacity_target o w focused_real = opacity_target_claim o w focused_real := by
  unfold win_calc_opacity_target opacity_target_claim
  cases h : o.wintype_opacity w.window_type <;>
    cases w.state <;> cases w.focused <;> cases w.has_opacity_prop <;>
      simp [h]

/-! ## Background blur (`win_blur_background`, legacy compton.c) -/

/-- The center-weight factor of `win_blur_background`: 1.0 when
`blur_background_fixed` is set, otherwise `pct * 8.0 / (1.1 - pct)` with
`pct = 1.0 - get_opacity_percent(w) * (1.0 - 1.0 / 9.0)`.  `opct` is
`get_opacity_percent(w)`, the window's opacity as a fraction of OPAQUE. -/
def factor_center (blur_background_fixed : Bool) (opct : ℚ) : ℚ :=
  if blur_background_fixed then 1
  else
    let pct : ℚ := 1 - opct * (1 - 1 / 9)
    pct * 8 / (11 / 10 - pct)

/-- The claim's formula for the blur center weight: `8·p/(1.1−p)` where
`p = 1 − opacity·(1−1/9)`. -/
def blur_center_weight_claim (opct : ℚ) : ℚ :=
  8 * (1 - opct * (1 - 1 / 9)) / (11 / 10 - (1 - opct * (1 - 1 / 9)))

/-- Writing the center weight into a convolution kernel: the kernel body is
`kern_src + 2` (we model the body only), its center entry is at
`(khei / 2) * kwid + kwid / 2`. -/
def set_center (kwid khei : ℕ) (kern : List ℚ) (v : ℚ) : List ℚ :=
  kern.set ((khei / 2) * kwid + kwid / 2) v

/-- Modelled from the spec: `normalize_conv_kern` lives in a header not
under src; per the spec the kernel is normalized after the center weight is
adjusted, i.e. every weight is divided by the kernel's total sum. -/
def normalize_conv_kern (kern : List ℚ) : List ℚ :=
  kern.map (fun v => v / kern.sum)

/-- The kernel cached by `win_blur_background` for one blur pass: the center
weight is set to `factor_center`, then the copy is normalized
(`normalize_conv_kern(kwid, khei, kern_dst + 2)` runs after the center
assignment). -/
def win_blur_background_kernel (blur_background_fixed : Bool) (opct : ℚ)
    (kwid khei : ℕ) (kern : List ℚ) : List ℚ :=
  normalize_conv_kern (set_center kwid khei kern (factor_center blur_background_fixed opct))

/-- Claim C8: with `blur_background_fixed` unset the kernel's center weight
is set to `8·p/(1.1−p)`, `p = 1 − opacity·(1−1/9)`, before normalization;
with it set the factor is 1. -/
theorem win_blur_background_center_weight (opct : ℚ) (kwid khei : ℕ) (kern : List ℚ) :
    win_blur_background_kernel false opct kwid khei kern
        = normalize_conv_kern (set_center kwid khei kern (blur_center_weight_claim opct))
      ∧ factor_center true opct = 1 := by
  constructor
  · unfold win_blur_background_kernel
    have h : factor_center false opct = blur_center_weight_claim opct := by
      unfold factor_center blur_center_weight_claim
      simp only [Bool.false_eq_true, if_false]
      ring
    rw [h]
  · rfl

/-! ## Window-local regions (part_001) -/

/-- A pixman box: the half-open rectangle [x1, x2) × [y1, y2); boxes with
`x2 ≤ x1` or `y2 ≤ y1` contain no point. -/
structure Rect where
  x1 : ℤ
  y1 : ℤ
  x2 : ℤ
  y2 : ℤ
  deriving DecidableEq, Repr

/-- Point membership in a box. -/
def Rect.memB (r : Rect) (x y : ℤ) : Bool :=
  decide (r.x1 ≤ x) && decide (x < r.x2) && decide (r.y1 ≤ y) && decide (y < r.y2)

/-- Pairwise box intersection (`pixman_region32_intersect` restricted to
single boxes distributes over the union of boxes). -/
def rectInter (a b : Rect) : Rect :=
  ⟨max a.x1 b.x1, max a.y1 b.y1, min a.x2 b.x2, min a.y2 b.y2⟩

/-- A region as a union of boxes; point membership. -/
def regionMemB (rs : List Rect) (x y : ℤ) : Bool :=
  rs.any (fun r => r.memB x y)

/-- Modelled from the spec: `win_calc_frame_extents` is a header helper not
under src; the spec lists the frame extents (top/right/bottom/left) as
window fields, and the claim quantifies over arbitrary reported extents. -/
def win_calc_frame_extents (w : Win) : Margin :=
  w.frame_extents

/-- The window rectangle [0, width] × [0, height] (`reg_win` of
`win_get_region_frame_local`). -/
def winRect (w : Win) : Rect :=
  ⟨0, 0, (w.g_width : ℤ), (w.g_height : ℤ)⟩

/-- `win_get_region_frame_local`: the union of the four frame bands (top,
bottom, left, right), limited to inside the window by intersecting with
`reg_win`. -/
def win_get_region_frame_local (w : Win) : List Rect :=
  let e := win_calc_frame_extents w
  let width : ℤ := (w.g_width : ℤ)
  let height : ℤ := (w.g_height : ℤ)
  [ Rect.mk 0 0 width e.top,
    Rect.mk 0 (height - e.bottom) width height,
    Rect.mk 0 0 e.left height,
    Rect.mk (width - e.right) 0 width height ].map (rectInter (winRect w))

/-- The interior width computed by `win_get_region_noframe_local`:
`max2(w->g.width - (extents.left + extents.right), 0)`. -/
def noframe_width (w : Win) : ℤ :=
  max ((w.g_width : ℤ) - ((win_calc_frame_extents w).left + (win_calc_frame_extents w).right)) 0

/-- The interior height computed by `win_get_region_noframe_local`:
`max2(w->g.height - (extents.top + extents.bottom), 0)`. -/
def noframe_height (w : Win) : ℤ :=
  max ((w.g_height : ℤ) - ((win_calc_frame_extents w).top + (win_calc_frame_extents w).bottom)) 0

/-- `win_get_region_noframe_local`: the interior rectangle when both
clamped dimensions are positive, else the empty region. -/
def win_get_region_noframe_local (w : Win) : List Rect :=
  let e := win_calc_frame_extents w
  if 0 < noframe_width w ∧ 0 < noframe_height w then
    [Rect.mk e.left e.top (e.left + noframe_width w) (e.top + noframe_height w)]
  else []

/-- Claim C10: whatever frame extents are reported, the frame region is
contained in the window rectangle [0, width] × [0, height]; the interior's
width and height are clamped at zero, and when either clamps the noframe
region is empty. -/
theorem win_region_frame_local_bounded (w : Win) :
    (∀ x y : ℤ, regionMemB (win_get_region_frame_local w) x y = true →
        (winRect w).memB x y = true)
      ∧ 0 ≤ noframe_width w ∧ 0 ≤ noframe_height w
      ∧ ((noframe_width w = 0 ∨ noframe_height w = 0) →
          win_get_region_noframe_local w = []) := by
  refine ⟨?_, le_max_right _ _, le_max_right _ _, ?_⟩
  · intro x y hmem
    simp only [regionMemB, win_get_region_frame_local, List.any_map, List.any_eq_true,
      Function.comp] at hmem
    obtain ⟨r, _, hr⟩ := hmem
    simp only [Rect.memB, rectInter, winRect, Bool.and_eq_true, decide_eq_true_eq,
      max_le_iff, le_max_iff, lt_min_iff, min_lt_iff] at hr ⊢
    omega
  · intro h
    unfold win_get_region_noframe_local
    rw [if_neg]
    rcases h with h | h <;> omega

/-- A 10×8 window whose WM reports frame extents with
`top + bottom = 11 > height`. -/
def c10Win : Win :=
  { win_def with g_width := 10, g_height := 8, frame_extents := ⟨5, 1, 2, 6⟩ }

/-- Witness for claim C10 on the misbehaving-WM window: a frame point
stays inside the window rectangle, the clamped interior dimensions are
nonnegative, and the over-reported height yields an empty interior. -/
theorem win_region_frame_local_bounded_witness :
    (winRect c10Win).memB 2 0 = true
      ∧ 0 ≤ noframe_width c10Win ∧ 0 ≤ noframe_height c10Win
      ∧ win_get_region_noframe_local c10Win = [] := by
  have h := win_region_frame_local_bounded c10Win
  exact ⟨h.1 2 0 (by decide), h.2.1, h.2.2.1, h.2.2.2 (Or.inr (by decide))⟩

/-! ## Fade stepping (legacy compton.c: `paint_preprocess` prologue and
`run_fade`) -/

/-- Modelled from the spec: `FADE_DELTA_TOLERANCE` is defined in a header
not under src; the spec's fade-stepping formula is exactly
`steps = floor((now - last_step_time) / fade_delta_ms)`, i.e. it carries no
tolerance term, so the constant is modelled as 0. -/
def FADE_DELTA_TOLERANCE : ℤ := 0

/-- The fade-step computation at the top of `paint_preprocess`: when
`fade_time` is set, `steps = ((now - fade_time) + FADE_DELTA_TOLERANCE *
fade_delta) / fade_delta` (C truncating division); a zero `fade_time` or a
negative step count resets `fade_time` to `now` with zero steps; finally
`fade_time += steps * fade_delta`.  Returns `(steps, new fade_time)`. -/
def fade_tick (now fade_time fade_delta : ℤ) : ℤ × ℤ :=
  let steps : ℤ := if fade_time ≠ 0 then
      Int.tdiv ((now - fade_time) + FADE_DELTA_TOLERANCE * fade_delta) fade_delta
    else 0
  if fade_time = 0 ∨ steps < 0 then (0, now)
  else (steps, fade_time + steps * fade_delta)

/-- Modelled from the spec: `normalize_d_range(d, lo, hi)` is a header
clamp helper not under src; the spec's fade step "clamps so that we never
cross the target". -/
def normalize_range (d lo hi : ℤ) : ℤ :=
  max lo (min d hi)

/-- The C constant OPAQUE = 0xffffffff as the upper bound of the integer
opacity scale of the legacy session (`opacity_t`). -/
def opaqueMax : ℤ := 4294967295

/-- `run_fade` of the legacy session, on the integer `opacity_t` scale
(all the doubles involved are integral, so the C double arithmetic is
exact): at the target nothing happens; a non-fading window snaps to the
target; otherwise with a nonzero step count the opacity moves by
`fade_in_step * steps` up (clamped to [0, target]) or by
`fade_out_step * steps` down (clamped to [target, OPAQUE]). -/
def run_fade (fade : Bool) (fade_in_step fade_out_step : ℤ) (steps : ℤ)
    (op tgt : ℤ) : ℤ :=
  if op = tgt then op
  else if fade = false then tgt
  else if steps ≠ 0 then
    if op < tgt then normalize_range (op + fade_in_step * steps) 0 tgt
    else normalize_range (op - fade_out_step * steps) tgt opaqueMax
  else op

/-- A non-fading window snaps straight to its target opacity. -/
theorem run_fade_snap (in_s out_s steps op tgt : ℤ) :
    run_fade false in_s out_s steps op tgt = tgt := by
  unfold run_fade
  by_cases h : op = tgt
  · rw [if_pos h]; exact h
  · rw [if_neg h, if_pos rfl]

/-- Fading in moves the opacity up by `fade_in_step * steps`, clamped at
the target. -/
theorem run_fade_up (in_s out_s steps op tgt : ℤ) (hsteps : 0 ≤ steps)
    (hin : 0 ≤ in_s) (hop : 0 ≤ op) (hlt : op < tgt) :
    run_fade true in_s out_s steps op tgt = min (op + in_s * steps) tgt := by
  have hk : 0 ≤ in_s * steps := mul_nonneg hin hsteps
  unfold run_fade normalize_range
  rw [if_neg (show ¬op = tgt by omega), if_neg (show ¬(true = false) by simp)]
  by_cases hz : steps = 0
  · rw [if_neg (not_not_intro hz), hz, mul_zero, add_zero]
    omega
  · rw [if_pos hz, if_pos hlt]
    generalize hgen : in_s * steps = k at hk ⊢
    omega

/-- Fading out moves the opacity down by `fade_out_step * steps`, clamped
at the target. -/
theorem run_fade_down (in_s out_s steps op tgt : ℤ) (hsteps : 0 ≤ steps)
    (hout : 0 ≤ out_s) (hop : op ≤ opaqueMax) (hgt : tgt < op) :
    run_fade true in_s out_s steps op tgt = max (op - out_s * steps) tgt := by
  have hk : 0 ≤ out_s * steps := mul_nonneg hout hsteps
  unfold run_fade normalize_range
  rw [if_neg (show ¬op = tgt by omega), if_neg (show ¬(true = false) by simp)]
  unfold opaqueMax at hop
  by_cases hz : steps = 0
  · rw [if_neg (not_not_intro hz), hz, mul_zero, sub_zero]
    omega
  · rw [if_pos hz, if_neg (show ¬op < tgt by omega)]
    unfold opaqueMax
    generalize hgen : out_s * steps = k at hk ⊢
    omega

/-- Claim C2: with `last_step_time` set and no clock disorder, a fade tick
takes `floor((now - last_step_time) / fade_delta)` steps and advances
`last_step_time` by exactly `steps * fade_delta`; a fading window's opacity
moves toward its target by `steps * fade_in_step` below the target or
`steps * fade_out_step` above it, clamped at the target, and a non-fading
window snaps to the target. -/
theorem fade_tick_steps_and_clamp (now ft delta in_step out_step op tgt : ℤ)
    (hft : ft ≠ 0) (hle : ft ≤ now) (hdelta : 0 < delta)
    (hop : 0 ≤ op) (hin : 0 ≤ in_step) (hout : 0 ≤ out_step) :
    (fade_tick now ft delta).1 = (now - ft) / delta
      ∧ (fade_tick now ft delta).2 = ft + ((now - ft) / delta) * delta
      ∧ (∀ fade : Bool, fade = false →
          run_fade fade in_step out_step (fade_tick now ft delta).1 op tgt = tgt)
      ∧ (op < tgt →
          run_fade true in_step out_step (fade_tick now ft delta).1 op tgt
            = min (op + in_step * (fade_tick now ft delta).1) tgt)
      ∧ (tgt < op → 0 ≤ tgt → op ≤ opaqueMax →
          run_fade true in_step out_step (fade_tick now ft delta).1 op tgt
            = max (op - out_step * (fade_tick now ft delta).1) tgt) := by
  have hsteps : 0 ≤ (now - ft) / delta := Int.ediv_nonneg (by omega) (by omega)
  have hdiv : Int.tdiv (now - ft) delta = (now - ft) / delta :=
    Int.tdiv_eq_ediv (by omega) (by omega)
  have htick : fade_tick now ft delta = ((now - ft) / delta, ft + ((now - ft) / delta) * delta) := by
    simp only [fade_tick, FADE_DELTA_TOLERANCE, zero_mul, add_zero, hft, ne_eq,
      not_false_eq_true, if_true, hdiv]
    rw [if_neg (by simp only [false_or, not_lt]; exact hsteps)]
  rw [htick]
  exact ⟨rfl, rfl, fun fade hf => hf ▸ run_fade_snap _ _ _ _ _,
    run_fade_up in_step out_step _ op tgt hsteps hin hop,
    fun hgt _ hmax => run_fade_down in_step out_step _ op tgt hsteps hout hmax hgt⟩

/-- Witness for claim C2 at concrete inputs: now = 1095, last_step_time =
1000, fade_delta = 10 gives 9 steps; a fading window at opacity 100 with
target 1000 and fade_in_step 50 reaches min(100 + 50·9, 1000) = 550. -/
theorem fade_tick_steps_and_clamp_witness :
    (fade_tick 1095 1000 10).1 = 9
      ∧ (fade_tick 1095 1000 10).2 = 1090
      ∧ run_fade true 50 30 (fade_tick 1095 1000 10).1 100 1000 = 550 := by
  have h := fade_tick_steps_and_clamp 1095 1000 10 50 30 100 1000
    (by decide) (by decide) (by decide) (by decide) (by decide) (by decide)
  refine ⟨by rw [h.1]; decide, by rw [h.2.1]; decide, ?_⟩
  rw [h.2.2.2.1 (by decide), h.1]
  decide

/-! ## The `to_paint` decision of `paint_preprocess` (legacy compton.c) -/

/-- The legacy `win` fields consulted by the `to_paint` decision.
`map_state_unmapped` is `IsUnmapped == w->a.map_state`;
`has_paint_pixmap` is `w->paint.pixmap != None`; `opacity` is the
`opacity_t` value on the 0..OPAQUE scale. -/
structure CWin where
  ever_damaged : Bool
  g_x : ℤ
  g_y : ℤ
  g_width : ℤ
  g_height : ℤ
  map_state_unmapped : Bool
  destroyed : Bool
  has_paint_pixmap : Bool
  opacity : ℕ
  paint_excluded : Bool
  deriving DecidableEq, Repr

/-- Legacy session fields consulted by the `to_paint` decision.
`alpha_step` is clamped into [0.01, 1.0] at option parsing. -/
structure CSession where
  root_width : ℤ
  root_height : ℤ
  alpha_step : ℚ
  deriving DecidableEq, Repr

/-- Modelled from the spec: `normalize_d` is a header clamp-to-[0,1]
helper not under src; the spec constrains opacities to [0,1]. -/
def normalize_d (d : ℚ) : ℚ :=
  max 0 (min d 1)

/-- C `round`: rounds half away from zero; every argument passed here is
nonnegative, where this equals `⌊q + 1/2⌋`. -/
def cround (q : ℚ) : ℤ :=
  ⌊q + 1 / 2⌋

/-- The slot of `ps->alpha_picts` chosen by `get_alpha_pict_d`:
`round(normalize_d(o) / alpha_step)`. -/
def get_alpha_pict_idx (s : CSession) (o : ℚ) : ℤ :=
  cround (normalize_d o / s.alpha_step)

/-- `get_alpha_pict_o`: the slot for an `opacity_t` value `o / OPAQUE`. -/
def get_alpha_pict_o_idx (s : CSession) (op : ℕ) : ℤ :=
  get_alpha_pict_idx s ((op : ℚ) / opaqueVal)

/-- `init_alpha_picts` leaves slot `i` as `None` exactly when
`(1.0 - i*alpha_step) > alpha_step` fails. -/
def alpha_pict_is_none (s : CSession) (i : ℤ) : Bool :=
  decide (1 - (i : ℚ) * s.alpha_step ≤ s.alpha_step)

/-- X-handle equality `get_alpha_pict_o(...) == ps->alpha_picts[0]`: the
handles agree exactly when the slots coincide or both hold `None`
(distinct solid pictures carry distinct X ids). -/
def alpha_pict_eq_slot0 (s : CSession) (i : ℤ) : Bool :=
  decide (i = 0) || (alpha_pict_is_none s i && alpha_pict_is_none s 0)

/-- The `to_paint` decision of `paint_preprocess`: false when the window
was never damaged, its geometry is entirely off the root, it is unmapped
or destroyed without a pixmap, its alpha picture is the fully transparent
slot, or it is paint-excluded. -/
def to_paint_decision (ps : CSession) (w : CWin) : Bool :=
  !(!w.ever_damaged
    || decide (w.g_x + w.g_width < 1) || decide (w.g_y + w.g_height < 1)
    || decide (ps.root_width ≤ w.g_x) || decide (ps.root_height ≤ w.g_y)
    || ((w.map_state_unmapped || w.destroyed) && !w.has_paint_pixmap)
    || alpha_pict_eq_slot0 ps (get_alpha_pict_o_idx ps w.opacity)
    || w.paint_excluded)

/-- The claim's version of the decision, with the opacity condition read
as `opacity × 255 < 1` on the [0,1] scale. -/
def to_paint_claim (ps : CSession) (w : CWin) : Bool :=
  !(!w.ever_damaged
    || decide (w.g_x + w.g_width < 1) || decide (w.g_y + w.g_height < 1)
    || decide (ps.root_width ≤ w.g_x) || decide (ps.root_height ≤ w.g_y)
    || ((w.map_state_unmapped || w.destroyed) && !w.has_paint_pixmap)
    || decide ((w.opacity : ℚ) / opaqueVal * 255 < 1)
    || w.paint_excluded)

/-- The amended decision: the opacity condition the code implements is
that the alpha picture rounds to the fully transparent slot, i.e.
`opacity / OPAQUE < alpha_step / 2`. -/
def to_paint_amended (ps : CSession) (w : CWin) : Bool :=
  !(!w.ever_damaged
    || decide (w.g_x + w.g_width < 1) || decide (w.g_y + w.g_height < 1)
    || decide (ps.root_width ≤ w.g_x) || decide (ps.root_height ≤ w.g_y)
    || ((w.map_state_unmapped || w.destroyed) && !w.has_paint_pixmap)
    || decide ((w.opacity : ℚ) / opaqueVal < ps.alpha_step / 2)
    || w.paint_excluded)

/-- The default-configuration session of the legacy code:
`alpha_step = 0.03` (compton.c line 5231). -/
def cexSession : CSession :=
  ⟨1280, 800, 3 / 100⟩

/-- A damaged, on-screen, mapped, non-excluded window at opacity
`0.0099…·OPAQUE` (so `opacity × 255 ≈ 2.55 ≥ 1`). -/
def cexWin : CWin :=
  ⟨true, 0, 0, 100, 100, false, false, true, 42949672, false⟩

/-- Counterexample to claim C5: at the default `alpha_step = 0.03`, a
window at 1% opacity has `opacity × 255 ≥ 1`, yet its alpha picture rounds
to the fully transparent slot, so the code decides `to_paint = false`
while the claim's condition list decides `true`. -/
theorem to_paint_opacity_threshold_cex :
    to_paint_decision cexSession cexWin = false
      ∧ to_paint_claim cexSession cexWin = true := by
  have h0 : get_alpha_pict_o_idx cexSession 42949672 = 0 := by
    unfold get_alpha_pict_o_idx get_alpha_pict_idx cround normalize_d cexSession opaqueVal
    rw [min_eq_left (by norm_num), max_eq_right (by norm_num)]
    norm_num
  have hidx : alpha_pict_eq_slot0 cexSession (get_alpha_pict_o_idx cexSession 42949672) = true := by
    rw [h0]
    simp [alpha_pict_eq_slot0]
  have hcl : ((42949672 : ℚ) / opaqueVal * 255 < 1) = False := by
    unfold opaqueVal
    norm_num
  constructor
  · simp [to_paint_decision, cexWin, hidx]
  · simp [to_paint_claim, cexSession, cexWin, hcl]

/-- The fully-transparent-slot test equals the `alpha_step / 2` threshold
once `alpha_step < 1` rules out a `None` slot 0. -/
theorem alpha_pict_eq_slot0_iff_half_step (s : CSession) (op : ℕ)
    (h1 : 0 < s.alpha_step) (h2 : s.alpha_step < 1) :
    alpha_pict_eq_slot0 s (get_alpha_pict_o_idx s op)
      = decide ((op : ℚ) / opaqueVal < s.alpha_step / 2) := by
  have hop : (0 : ℚ) ≤ (op : ℚ) / opaqueVal :=
    div_nonneg (Nat.cast_nonneg op) (by norm_num [opaqueVal])
  have h0 : alpha_pict_is_none s 0 = false := by
    unfold alpha_pict_is_none
    simp only [Int.cast_zero, zero_mul, sub_zero, decide_eq_false_iff_not, not_le]
    linarith
  unfold alpha_pict_eq_slot0
  rw [h0, Bool.and_false, Bool.or_false, decide_eq_decide]
  unfold get_alpha_pict_o_idx get_alpha_pict_idx cround normalize_d
  rw [Int.floor_eq_zero_iff]
  have hmax : max 0 (min ((op : ℚ) / opaqueVal) 1) = min ((op : ℚ) / opaqueVal) 1 :=
    max_eq_right (le_min hop zero_le_one)
  rw [hmax]
  have hminnn : (0 : ℚ) ≤ min ((op : ℚ) / opaqueVal) 1 := le_min hop zero_le_one
  have hdivnn : (0 : ℚ) ≤ min ((op : ℚ) / opaqueVal) 1 / s.alpha_step :=
    div_nonneg hminnn h1.le
  constructor
  · intro h
    have hlt : min ((op : ℚ) / opaqueVal) 1 / s.alpha_step < 1 / 2 := by
      linarith [h.2]
    have hmin : min ((op : ℚ) / opaqueVal) 1 < s.alpha_step / 2 := by
      rw [div_lt_iff₀ h1] at hlt
      linarith
    rcases min_lt_iff.mp hmin with hx | hx
    · exact hx
    · linarith
  · intro h
    have hmin : min ((op : ℚ) / opaqueVal) 1 < s.alpha_step / 2 :=
      lt_of_le_of_lt (min_le_left _ _) h
    have hlt : min ((op : ℚ) / opaqueVal) 1 / s.alpha_step < 1 / 2 := by
      rw [div_lt_iff₀ h1]
      linarith
    constructor
    · linarith
    · linarith

/-- Claim C5 amended: `to_paint` is decided false exactly when the window
was never damaged, is entirely off-screen, is unmapped or destroyed
without a pixmap, has opacity below `alpha_step / 2` of OPAQUE (the alpha
picture rounds to the fully transparent slot), or is paint-excluded. -/
theorem to_paint_decision_eq_amended (ps : CSession) (w : CWin)
    (h1 : 0 < ps.alpha_step) (h2 : ps.alpha_step < 1) :
    to_paint_decision ps w = to_paint_amended ps w := by
  unfold to_paint_decision to_paint_amended
  rw [alpha_pict_eq_slot0_iff_half_step ps w.opacity h1 h2]

/-- Witness for the amended claim C5 at the default configuration. -/
theorem to_paint_decision_eq_amended_witness :
    to_paint_decision cexSession cexWin = to_paint_amended cexSession cexWin :=
  to_paint_decision_eq_amended cexSession cexWin (by norm_num [cexSession]) (by norm_num [cexSession])

/-! ## Damage accumulation and the paint decision (legacy compton.c) -/

/-- The session state feeding the paint decision: the redirect flag and
the accumulated damage (`ps->all_damage`, `None` when absent). -/
structure PaintState where
  redirected : Bool
  all_damage : Option (List Rect)
  deriving DecidableEq, Repr

/-- `add_damage`: when the screen is not redirected the incoming damage is
freed (`free_region` nulls the handle) and nothing accumulates; otherwise
it is unioned into `all_damage`, or becomes it. -/
def add_damage (s : PaintState) (damage : Option (List Rect)) : PaintState :=
  let damage := if !s.redirected then none else damage
  match damage with
  | none => s
  | some d =>
    match s.all_damage with
    | some acc => { s with all_damage := some (acc ++ d) }
    | none => { s with all_damage := some d }

/-- `is_region_empty`: the region covers no pixel. -/
def region_empty (d : List Rect) : Bool :=
  d.all fun r => decide (r.x2 ≤ r.x1) || decide (r.y2 ≤ r.y1)

/-- The tail of one `session_run` iteration after `paint_preprocess`: if
the screen is unredirected (or painting is force-stopped) `all_damage` is
freed before the paint decision; `paint_all` runs only when nonempty
damage remains, and that damage is then cleared.  Returns the new state
and whether a paint was emitted. -/
def session_paint_step (s : PaintState) (stoppaint_force_on : Bool) :
    PaintState × Bool :=
  let s1 := if !s.redirected || stoppaint_force_on then { s with all_damage := none } else s
  match s1.all_damage with
  | some d => if !region_empty d then ({ s1 with all_damage := none }, true) else (s1, false)
  | none => (s1, false)

/-- Claim C6: while the screen is unredirected, added damage is dropped
rather than accumulated, the accumulated damage is discarded before the
paint decision, and no paint is emitted. -/
theorem no_paint_while_unredirected (s : PaintState) (d : Option (List Rect))
    (f : Bool) (h : s.redirected = false) :
    add_damage s d = s
      ∧ (session_paint_step s f).2 = false
      ∧ (session_paint_step s f).1.all_damage = none := by
  refine ⟨?_, ?_, ?_⟩ <;> simp [add_damage, session_paint_step, h]

/-- Witness for claim C6: an unredirected session holding pending damage
drops new damage and emits no paint. -/
theorem no_paint_while_unredirected_witness :
    add_damage ⟨false, some [⟨0, 0, 5, 5⟩]⟩ (some [⟨1, 1, 2, 2⟩]) = ⟨false, some [⟨0, 0, 5, 5⟩]⟩
      ∧ (session_paint_step ⟨false, some [⟨0, 0, 5, 5⟩]⟩ false).2 = false
      ∧ (session_paint_step ⟨false, some [⟨0, 0, 5, 5⟩]⟩ false).1.all_damage = none :=
  no_paint_while_unredirected ⟨false, some [⟨0, 0, 5, 5⟩]⟩ (some [⟨1, 1, 2, 2⟩]) false rfl

/-! ## Restacking (`restack_win`, legacy compton.c) -/

/-- A node of the legacy window list as seen by `restack_win`: its id and
the `destroyed` flag. -/
structure RWin where
  id : ℕ
  destroyed : Bool
  deriving DecidableEq, Repr

/-- `old_above` of `restack_win`: the id of `w->next`, or `None` (0) when
`w` ends the list or is absent. -/
def old_above_id : List RWin → ℕ → ℕ
  | [], _ => 0
  | x :: xs, wid =>
    if x.id = wid then
      match xs with
      | [] => 0
      | y :: _ => y.id
    else old_above_id xs wid

/-- Insert `y` immediately before the first node satisfying `p` (at the
end when none does). -/
def insertBeforeFirst {α : Type} (p : α → Bool) (y : α) : List α → List α
  | [] => [y]
  | x :: xs => if p x then y :: x :: xs else x :: insertBeforeFirst p y xs

/-- `restack_win`: a no-op when `new_above` already is the id of `w->next`;
otherwise the rehook scan looks for the first node with id `new_above` that
is not destroyed.  A nonzero `new_above` with no such node is reported and
left a no-op; otherwise `w` is unhooked and rehooked immediately before the
found node (at the list end when `new_above` is 0). -/
def restack_win (l : List RWin) (wid new_above : ℕ) : List RWin :=
  match l.find? (fun n => n.id == wid) with
  | none => l
  | some w =>
    if old_above_id l wid = new_above then l
    else
      match l.find? (fun n => n.id == new_above && !n.destroyed) with
      | none =>
        if new_above ≠ 0 then l
        else (l.eraseP (fun n => n.id == wid)) ++ [w]
      | some x =>
        if x = w then l
        else insertBeforeFirst (fun n => n.id == new_above && !n.destroyed) w
            (l.eraseP (fun n => n.id == wid))

/-- Claim C7: a restack whose nonzero `new_above` names no non-destroyed
node reports the failure and leaves the stack unchanged, and a restack to
the node already adjacent changes nothing.  (The error report itself is a
log line, not modelled.) -/
theorem restack_win_noop (l : List RWin) (wid na : ℕ)
    (h : (na ≠ 0 ∧ ∀ n ∈ l, ¬(n.id = na ∧ n.destroyed = false))
        ∨ old_above_id l wid = na) :
    restack_win l wid na = l := by
  unfold restack_win
  cases hf : l.find? (fun n => n.id == wid) with
  | none => rfl
  | some w =>
    dsimp only
    rcases h with ⟨hna, hall⟩ | hold
    · by_cases hoa : old_above_id l wid = na
      · rw [if_pos hoa]
      · rw [if_neg hoa]
        have hfind : l.find? (fun n => n.id == na && !n.destroyed) = none := by
          rw [List.find?_eq_none]
          intro x hx
          simp only [Bool.and_eq_true, beq_iff_eq, Bool.not_eq_true']
          intro hcontra
          exact hall x hx ⟨hcontra.1, hcontra.2⟩
        rw [hfind, if_pos hna]
    · rw [if_pos hold]

/-- Witness for claim C7: restacking window 1 above the destroyed window
2 in the stack `[1, 2 (destroyed)]` fails and changes nothing, and
restacking window 5 above its current neighbour 7 in `[5, 7]` changes
nothing. -/
theorem restack_win_noop_witness :
    restack_win [⟨1, false⟩, ⟨2, true⟩] 1 2 = [⟨1, false⟩, ⟨2, true⟩]
      ∧ restack_win [⟨5, false⟩, ⟨7, false⟩] 5 7 = [⟨5, false⟩, ⟨7, false⟩] :=
  ⟨restack_win_noop [⟨1, false⟩, ⟨2, true⟩] 1 2 (Or.inl ⟨by decide, by decide⟩),
    restack_win_noop [⟨5, false⟩, ⟨7, false⟩] 5 7 (Or.inr (by decide))⟩

/-! ## The unredirect-delay timer (legacy compton.c) -/

/-- The redirect-controller state: the `redirected` flag, the one-shot
timer's `enabled` flag (`ps->tmout_unredir->enabled`) and the
`ps->tmout_unredir_hit` flag set by the timer callback. -/
structure RedirState where
  redirected : Bool
  timer_enabled : Bool
  unredir_hit : Bool
  deriving DecidableEq, Repr

/-- The (un)redirect decision at the end of `paint_preprocess`, with
`cond` the final `unredir_possible` value and `delay_positive` whether
`unredir_if_possible_delay > 0` is configured: while redirected and the
condition holds, `redir_stop` runs only without a delay or once the timer
has hit, else the timer is started if not already armed; when the
condition fails the timer is disabled and `redir_start` (a no-op when
already redirected) runs. -/
def preprocess_redir_step (delay_positive cond : Bool) (s : RedirState) : RedirState :=
  if cond then
    if s.redirected then
      if !delay_positive || s.unredir_hit then { s with redirected := false }
      else if !s.timer_enabled then { s with timer_enabled := true }
      else s
    else s
  else { s with timer_enabled := false, redirected := true }

/-- `tmout_unredir_callback`: the reactor invokes it only while the timer
is enabled and due; it records the hit and disables the one-shot. -/
def tmout_unredir_fire (s : RedirState) : RedirState :=
  if s.timer_enabled then { s with unredir_hit := true, timer_enabled := false } else s

/-- `session_run` resets `ps->tmout_unredir_hit` right after each
`paint_preprocess`, so a hit is consumed by exactly one preprocess pass. -/
def clear_unredir_hit (s : RedirState) : RedirState :=
  { s with unredir_hit := false }

/-- Claim C4: with a positive delay configured, a preprocess pass that
finds the condition true while redirected and before the timer has fired
arms the timer (or leaves it running) and keeps the screen redirected;
the screen is unredirected only by a pass that sees both the condition
and the timer's hit; the timer is newly armed only by a redirected pass
that saw the condition with a positive delay before any hit, the hit flag
can only originate from the timer firing, and is
cleared after every pass; and a pass that finds the condition false
disables the timer and leaves the screen redirected. -/
theorem unredir_delay_timer_protocol (s : RedirState) (d c : Bool) :
    (s.redirected = true → s.unredir_hit = false →
        preprocess_redir_step true true s = { s with timer_enabled := true })
      ∧ (d = true → (preprocess_redir_step d c s).redirected = false →
          s.redirected = false ∨ (c = true ∧ s.unredir_hit = true))
      ∧ (s.timer_enabled = false → (preprocess_redir_step d c s).timer_enabled = true →
          c = true ∧ s.redirected = true ∧ d = true ∧ s.unredir_hit = false)
      ∧ ((tmout_unredir_fire s).unredir_hit = true →
          s.unredir_hit = true ∨ s.timer_enabled = true)
      ∧ (clear_unredir_hit s).unredir_hit = false
      ∧ preprocess_redir_step d false s = { s with timer_enabled := false, redirected := true } := by
  rcases s with ⟨r, te, hit⟩
  cases r <;> cases te <;> cases hit <;> cases d <;> cases c <;>
    simp_all [preprocess_redir_step, tmout_unredir_fire, clear_unredir_hit]

/-- Witness for claim C4 at a concrete state: redirected, timer idle, no
hit; a condition-true pass arms the timer without unredirecting, and a
condition-false pass disables it. -/
theorem unredir_delay_timer_protocol_witness :
    preprocess_redir_step true true ⟨true, false, false⟩ = ⟨true, true, false⟩
      ∧ preprocess_redir_step true false ⟨true, true, false⟩ = ⟨true, false, false⟩ :=
  ⟨(unredir_delay_timer_protocol ⟨true, false, false⟩ true true).1 rfl rfl,
    (unredir_delay_timer_protocol ⟨true, true, false⟩ true false).2.2.2.2.2⟩

/-! ## Leader resolution (`win_get_leader_raw`, part_001) -/

/-- Update the first node satisfying `p` (the C code mutates one struct
through a pointer). -/
def replaceFirst {α : Type} (p : α → Bool) (f : α → α) : List α → List α
  | [] => []
  | x :: xs => if p x then f x :: xs else x :: replaceFirst p f xs

/-- The session's window collection as consulted by the leader walk. -/
abbrev WinMap := List Win

/-- `find_toplevel`: the first window whose client window is `id`
(`NULL` for id 0). -/
def find_toplevel (ws : WinMap) (id : ℕ) : Option Win :=
  if id = 0 then none else ws.find? (fun w => w.client_win == id)

/-- The initial cache value of the walk:
`if (!(w->cache_leader = w->leader)) w->cache_leader = w->client_win`. -/
def defaultLeader (w : Win) : ℕ :=
  if w.leader ≠ 0 then w.leader else w.client_win

/-- Store `v` into the `cache_leader` of the window `wid`. -/
def cacheSet (ws : WinMap) (wid v : ℕ) : WinMap :=
  replaceFirst (fun x => x.id == wid) (fun x => { x with cache_leader := v }) ws

/-- `win_get_leader_raw` with explicit recursion fuel; `none` marks fuel
exhaustion and never arises from the code paths themselves (claim C9).
A cache hit (or a window with neither client nor leader) answers
directly; otherwise the cache is seeded from the leader (falling back to
the client window) and, when that names a different toplevel,
`WIN_GET_LEADER_MAX_RECURSION` bounds the walk: past the bound the call
answers `XCB_NONE` (0), leaving the seeded cache in place; otherwise the
walk recurses and stores its result in the cache.  The constant's value
is not under src, so the bound is kept as the parameter `maxRec`. -/
def win_get_leader_raw (maxRec : ℕ) : ℕ → WinMap → ℕ → ℕ → Option (ℕ × WinMap)
  | 0, _, _, _ => none
  | fuel + 1, ws, wid, recursions =>
    match ws.find? (fun x => x.id == wid) with
    | none => some (0, ws)
    | some w =>
      if w.cache_leader = 0 ∧ (w.client_win ≠ 0 ∨ w.leader ≠ 0) then
        if defaultLeader w ≠ 0 ∧ defaultLeader w ≠ w.client_win then
          match find_toplevel (cacheSet ws wid (defaultLeader w)) (defaultLeader w) with
          | some wp =>
            if maxRec < recursions then some (0, cacheSet ws wid (defaultLeader w))
            else
              match win_get_leader_raw maxRec fuel (cacheSet ws wid (defaultLeader w))
                  wp.id (recursions + 1) with
              | none => none
              | some (res, ws2) => some (res, cacheSet ws2 wid res)
          | none => some (defaultLeader w, cacheSet ws wid (defaultLeader w))
        else some (defaultLeader w, cacheSet ws wid (defaultLeader w))
      else some (w.cache_leader, ws)

/-- Fuel `maxRec + 2 - recursions` always suffices: the recursion-depth
guard fires before the fuel can run out, on any window graph. -/
theorem win_get_leader_raw_fuel (maxRec : ℕ) :
    ∀ fuel recursions ws wid, 1 ≤ fuel → maxRec + 2 ≤ fuel + recursions →
      (win_get_leader_raw maxRec fuel ws wid recursions).isSome = true := by
  intro fuel
  induction fuel with
  | zero => intro r ws wid h1 _; omega
  | succ n ih =>
    intro r ws wid _ h2
    simp only [win_get_leader_raw]
    cases hf : ws.find? (fun x => x.id == wid) with
    | none => simp
    | some w =>
      dsimp only
      by_cases hc : w.cache_leader = 0 ∧ (w.client_win ≠ 0 ∨ w.leader ≠ 0)
      · rw [if_pos hc]
        by_cases hd : defaultLeader w ≠ 0 ∧ defaultLeader w ≠ w.client_win
        · rw [if_pos hd]
          cases hft : find_toplevel (cacheSet ws wid (defaultLeader w)) (defaultLeader w) with
          | none => simp
          | some wp =>
            dsimp only
            by_cases hr : maxRec < r
            · rw [if_pos hr]; simp
            · rw [if_neg hr]
              have hn : 1 ≤ n := by omega
              have hih := ih (r + 1) (cacheSet ws wid (defaultLeader w)) wp.id hn (by omega)
              cases hrec : win_get_leader_raw maxRec n (cacheSet ws wid (defaultLeader w))
                  wp.id (r + 1) with
              | none => rw [hrec] at hih; simp at hih
              | some p => rcases p with ⟨res, ws2⟩; simp
        · rw [if_neg hd]; simp
      · rw [if_neg hc]; simp

/-- Claim C9: the leader walk is bounded: with fuel covering
`maxRec + 2` nested calls the walk always answers, even on cyclic
transient-for / client-leader graphs; past the recursion bound the walk
answers `XCB_NONE`; and a window with neither client window nor leader
(and hence an empty cache) resolves to `XCB_NONE` with its session
untouched. -/
theorem win_get_leader_raw_bounded (maxRec : ℕ) :
    (∀ fuel recursions ws wid, 1 ≤ fuel → maxRec + 2 ≤ fuel + recursions →
        (win_get_leader_raw maxRec fuel ws wid recursions).isSome = true)
      ∧ (∀ fuel recursions ws wid w, ws.find? (fun x => x.id == wid) = some w →
          w.cache_leader = 0 → (w.client_win ≠ 0 ∨ w.leader ≠ 0) →
          defaultLeader w ≠ 0 → defaultLeader w ≠ w.client_win →
          (find_toplevel (cacheSet ws wid (defaultLeader w)) (defaultLeader w)).isSome = true →
          maxRec < recursions →
          win_get_leader_raw maxRec (fuel + 1) ws wid recursions
            = some (0, cacheSet ws wid (defaultLeader w)))
      ∧ (∀ fuel recursions ws wid w, ws.find? (fun x => x.id == wid) = some w →
          w.client_win = 0 → w.leader = 0 →
          win_get_leader_raw maxRec (fuel + 1) ws wid recursions
            = some (w.cache_leader, ws)) := by
  refine ⟨win_get_leader_raw_fuel maxRec, ?_, ?_⟩
  · intro fuel r ws wid w hf hcache hcl hd0 hdc hft hr
    simp only [win_get_leader_raw]
    rw [hf]
    dsimp only
    rw [if_pos ⟨hcache, hcl⟩, if_pos ⟨hd0, hdc⟩]
    cases hftv : find_toplevel (cacheSet ws wid (defaultLeader w)) (defaultLeader w) with
    | none => rw [hftv] at hft; simp at hft
    | some wp => dsimp only; rw [if_pos hr]
  · intro fuel r ws wid w hf hc hl
    simp only [win_get_leader_raw]
    rw [hf]
    dsimp only
    rw [if_neg]
    simp [hc, hl]

/-- A cyclic leader graph: windows 1 and 2 name each other through
`WM_CLIENT_LEADER` and their client windows. -/
def cyclicMap : WinMap :=
  [{ win_def with id := 1, client_win := 11, leader := 22 },
   { win_def with id := 2, client_win := 22, leader := 11 }]

/-- Witness for claim C9 at bound 20: on the cyclic graph the walk with
fuel 22 answers; a call already past the bound answers `XCB_NONE`; and a
window with neither client nor leader resolves to `XCB_NONE`. -/
theorem win_get_leader_raw_bounded_witness :
    (win_get_leader_raw 20 22 cyclicMap 1 0).isSome = true
      ∧ win_get_leader_raw 20 1 cyclicMap 1 21
          = some (0, cacheSet cyclicMap 1 22)
      ∧ win_get_leader_raw 20 1 [win_def] 0 0 = some (0, [win_def]) := by
  have h := win_get_leader_raw_bounded 20
  refine ⟨h.1 22 0 cyclicMap 1 (by decide) (by decide), ?_, ?_⟩
  · exact h.2.1 0 21 cyclicMap 1 { win_def with id := 1, client_win := 11, leader := 22 }
      (by decide) (by decide) (by decide) (by decide) (by decide) (by decide) (by decide)
  · exact h.2.2 0 0 [win_def] 0 win_def (by decide) (by decide) (by decide)

/-! ## The window stack and the id-index (part_001)

The session keeps a doubly linked `window_stack` and a uthash id-index
over the same nodes.  The list below is the stack (head = top); hash
membership of a node is its `in_index` flag, since the hash stores
pointers to stack nodes. -/

/-- The registry state consulted by the lifecycle operations. -/
structure Registry where
  stack : List Win
  redirected : Bool
  deriving DecidableEq, Repr

/-- The window `add_win` allocates: `win_def` with the new id. -/
def freshWin (id : ℕ) (input_only : Bool) : Win :=
  { win_def with id := id, input_only := input_only }

/-- `find_win`: hash lookup by id (`NULL` for id 0); only nodes in the
id-index can be found. -/
def find_win (reg : Registry) (id : ℕ) : Option Win :=
  if id = 0 then none else reg.stack.find? (fun w => w.id == id && w.in_index)

/-- `add_win`: duplicate ids still in the index are rejected with a log
line; otherwise the fresh UNMAPPED window enters the stack (at the head
for `prev = 0`, else immediately above the window `prev` names through
the hash) and the hash.  The X attribute round-trip and the overlay check
are not modelled; a nonzero `prev` missing from the hash trips an assert
in the C code and is modelled as a no-op. -/
def add_win (reg : Registry) (id prev : ℕ) (input_only : Bool) : Registry :=
  if (find_win reg id).isSome then reg
  else if prev = 0 then { reg with stack := freshWin id input_only :: reg.stack }
  else if (find_win reg prev).isSome then
    { reg with stack := (insertBeforeFirst (fun w => w.id == prev && w.in_index)
        (freshWin id input_only) reg.stack) }
  else reg

/-- `unmap_win(ps, &w, destroy)` for the window `find_win` returns (the
event handlers look the window up first).  Unmapping ignores Input Only
windows; a transition to the state already held is a warned no-op; a
destroy removes the id from the hash at once; an UNMAPPED (or Input Only)
window being destroyed is freed immediately; otherwise the state moves to
DESTROYING/UNMAPPING with opacity target 0, and with redirection off the
fade is skipped, completing the transition at once
(`win_skip_fading` + `win_check_fade_finished`). -/
def unmap_win (reg : Registry) (id : ℕ) (destroy : Bool) : Registry :=
  match find_win reg id with
  | none => reg
  | some w =>
    if ¬destroy ∧ w.input_only then reg
    else if w.state = (if destroy then WState.DESTROYING else WState.UNMAPPING) then reg
    else if w.state = WState.UNMAPPED ∨ w.input_only then
      if ¬destroy then reg
      else { reg with stack := reg.stack.eraseP (fun x => x.id == id && x.in_index) }
    else if reg.redirected then
      if destroy then
        { reg with stack := (replaceFirst (fun x => x.id == id && x.in_index)
            (fun x => { x with in_index := false, state := WState.DESTROYING, opacity_tgt := 0 })
            reg.stack) }
      else
        { reg with stack := (replaceFirst (fun x => x.id == id && x.in_index)
            (fun x => { x with state := WState.UNMAPPING, opacity_tgt := 0 }) reg.stack) }
    else if destroy then
      { reg with stack := reg.stack.eraseP (fun x => x.id == id && x.in_index) }
    else
      { reg with stack := (replaceFirst (fun x => x.id == id && x.in_index)
          (fun x => { x with state := WState.UNMAPPED, opacity := 0, opacity_tgt := 0 })
          reg.stack) }

/-- `map_win` for the window `find_win` returns; `tgt` is the
`win_calc_opacity_target` value computed at this point.  Input Only
windows and already mapped windows are ignored; an UNMAPPING window first
skips its fade; the state becomes MAPPING, and with redirection off the
fade is skipped straight to MAPPED at the target. -/
def map_win (reg : Registry) (id : ℕ) (tgt : ℚ) : Registry :=
  match find_win reg id with
  | none => reg
  | some w =>
    if w.input_only then reg
    else if ¬(w.state = WState.UNMAPPED ∨ w.state = WState.UNMAPPING) then reg
    else if reg.redirected then
      { reg with stack := (replaceFirst (fun x => x.id == id && x.in_index)
          (fun x => { x with
            state := WState.MAPPING,
            opacity := if w.state = WState.UNMAPPING then w.opacity_tgt else x.opacity,
            opacity_tgt := tgt }) reg.stack) }
    else
      { reg with stack := (replaceFirst (fun x => x.id == id && x.in_index)
          (fun x => { x with state := WState.MAPPED, opacity := tgt, opacity_tgt := tgt })
          reg.stack) }

/-- Update the node at position `i`. -/
def modifyIdx {α : Type} (f : α → α) : ℕ → List α → List α
  | _, [] => []
  | 0, x :: xs => f x :: xs
  | n + 1, x :: xs => x :: modifyIdx f n xs

/-- Remove the node at position `i`. -/
def removeIdx {α : Type} : ℕ → List α → List α
  | _, [] => []
  | 0, _ :: xs => xs
  | n + 1, x :: xs => x :: removeIdx n xs

/-- `win_check_fade_finished` for the stack node at position `i`: once
the opacity reaches its target, UNMAPPING completes to UNMAPPED
(`finish_unmap_win`), DESTROYING frees the node and unlinks it from the
stack (`finish_destroy_win`), and MAPPING/FADING settle at MAPPED. -/
def check_fade_finished_at (reg : Registry) (i : ℕ) : Registry :=
  match reg.stack.get? i with
  | none => reg
  | some w =>
    if w.state = WState.MAPPED ∨ w.state = WState.UNMAPPED then reg
    else if w.opacity = w.opacity_tgt then
      match w.state with
      | WState.UNMAPPING =>
        { reg with stack := (modifyIdx (fun x => { x with state := WState.UNMAPPED }) i reg.stack) }
      | WState.DESTROYING => { reg with stack := removeIdx i reg.stack }
      | WState.MAPPING =>
        { reg with stack := (modifyIdx (fun x => { x with state := WState.MAPPED }) i reg.stack) }
      | WState.FADING =>
        { reg with stack := (modifyIdx (fun x => { x with state := WState.MAPPED }) i reg.stack) }
      | _ => reg
    else reg

/-- A node sits in the id-index exactly while it is not DESTROYING. -/
def wfNode (w : Win) : Bool :=
  w.in_index == decide (w.state ≠ WState.DESTROYING)

/-- The ids the id-index holds, in stack order. -/
def indexedIds (l : List Win) : List ℕ :=
  (l.filter (fun w => w.in_index)).map (fun w => w.id)

/-- The registry invariant: index membership tracks the DESTROYING state
node by node, and the index holds each id at most once. -/
def regInv (reg : Registry) : Prop :=
  (∀ w ∈ reg.stack, wfNode w = true) ∧ (indexedIds reg.stack).Nodup

/-! ### List helper lemmas -/

theorem indexedIds_cons (x : Win) (xs : List Win) :
    indexedIds (x :: xs) = if x.in_index then x.id :: indexedIds xs else indexedIds xs := by
  unfold indexedIds
  by_cases h : x.in_index <;> simp [List.filter_cons, h]

theorem insertBeforeFirst_perm {α : Type} (p : α → Bool) (y : α) (l : List α) :
    (insertBeforeFirst p y l).Perm (y :: l) := by
  induction l with
  | nil => exact List.Perm.refl _
  | cons x xs ih =>
    unfold insertBeforeFirst
    by_cases h : p x
    · rw [if_pos h]
    · rw [if_neg h]
      exact (ih.cons x).trans (List.Perm.swap y x xs)

theorem indexedIds_perm {l1 l2 : List Win} (h : l1.Perm l2) :
    (indexedIds l1).Perm (indexedIds l2) :=
  (h.filter _).map _

theorem indexedIds_sublist {l1 l2 : List Win} (h : l1.Sublist l2) :
    (indexedIds l1).Sublist (indexedIds l2) :=
  (h.filter _).map _

theorem mem_indexedIds {l : List Win} {w : Win} (hw : w ∈ l) (hi : w.in_index = true) :
    w.id ∈ indexedIds l :=
  List.mem_map_of_mem _ (List.mem_filter.mpr ⟨hw, hi⟩)

theorem replaceFirst_wf {p : Win → Bool} {f : Win → Win} {l : List Win}
    (hall : ∀ w ∈ l, wfNode w = true)
    (hf : ∀ w, p w = true → wfNode w = true → wfNode (f w) = true) :
    ∀ w ∈ replaceFirst p f l, wfNode w = true := by
  induction l with
  | nil => intro w hw; simp [replaceFirst] at hw
  | cons x xs ih =>
    intro w hw
    unfold replaceFirst at hw
    by_cases h : p x
    · rw [if_pos h] at hw
      rcases List.mem_cons.mp hw with rfl | hw
      · exact hf x h (hall x (List.mem_cons_self x xs))
      · exact hall w (List.mem_cons_of_mem x hw)
    · rw [if_neg h] at hw
      rcases List.mem_cons.mp hw with rfl | hw
      · exact hall w (List.mem_cons_self w xs)
      · exact ih (fun v hv => hall v (List.mem_cons_of_mem x hv)) w hw

theorem replaceFirst_indexedIds_eq {p : Win → Bool} {f : Win → Win} (l : List Win)
    (hf : ∀ w, (f w).id = w.id ∧ (f w).in_index = w.in_index) :
    indexedIds (replaceFirst p f l) = indexedIds l := by
  induction l with
  | nil => rfl
  | cons x xs ih =>
    unfold replaceFirst
    by_cases h : p x
    · rw [if_pos h, indexedIds_cons, indexedIds_cons, (hf x).1, (hf x).2]
    · rw [if_neg h, indexedIds_cons, indexedIds_cons, ih]

theorem replaceFirst_indexedIds_sublist {p : Win → Bool} {f : Win → Win} (l : List Win)
    (hf : ∀ w, (f w).in_index = false) :
    (indexedIds (replaceFirst p f l)).Sublist (indexedIds l) := by
  induction l with
  | nil => exact List.Sublist.refl _
  | cons x xs ih =>
    unfold replaceFirst
    by_cases h : p x
    · rw [if_pos h, indexedIds_cons, indexedIds_cons, hf x]
      simp only [Bool.false_eq_true, if_false]
      by_cases hx : x.in_index
      · rw [if_pos hx]
        exact (List.Sublist.refl _).cons _
      · rw [if_neg hx]
    · rw [if_neg h, indexedIds_cons, indexedIds_cons]
      by_cases hx : x.in_index
      · rw [if_pos hx, if_pos hx]
        exact ih.cons₂ _
      · rw [if_neg hx, if_neg hx]
        exact ih

theorem removeIdx_sublist {α : Type} (i : ℕ) (l : List α) :
    (removeIdx i l).Sublist l := by
  induction l generalizing i with
  | nil => cases i <;> exact List.Sublist.refl _
  | cons x xs ih =>
    cases i with
    | zero => exact (List.Sublist.refl xs).cons x
    | succ n => exact (ih n).cons₂ x

theorem modifyIdx_wf {f : Win → Win} {l : List Win} {i : ℕ}
    (hall : ∀ w ∈ l, wfNode w = true)
    (hf : ∀ x, l.get? i = some x → wfNode x = true → wfNode (f x) = true) :
    ∀ w ∈ modifyIdx f i l, wfNode w = true := by
  induction l generalizing i with
  | nil => intro w hw; simp [modifyIdx] at hw
  | cons x xs ih =>
    intro w hw
    cases i with
    | zero =>
      unfold modifyIdx at hw
      rcases List.mem_cons.mp hw with rfl | hw
      · exact hf x rfl (hall x (List.mem_cons_self x xs))
      · exact hall w (List.mem_cons_of_mem x hw)
    | succ n =>
      unfold modifyIdx at hw
      rcases List.mem_cons.mp hw with rfl | hw
      · exact hall w (List.mem_cons_self w xs)
      · exact ih (fun v hv => hall v (List.mem_cons_of_mem x hv)) (fun v hv => hf v hv) w hw

theorem modifyIdx_indexedIds_eq {f : Win → Win} (l : List Win) (i : ℕ)
    (hf : ∀ w, (f w).id = w.id ∧ (f w).in_index = w.in_index) :
    indexedIds (modifyIdx f i l) = indexedIds l := by
  induction l generalizing i with
  | nil => cases i <;> rfl
  | cons x xs ih =>
    cases i with
    | zero => rw [modifyIdx, indexedIds_cons, indexedIds_cons, (hf x).1, (hf x).2]
    | succ n => rw [modifyIdx, indexedIds_cons, indexedIds_cons, ih]

theorem find?_replaceFirst_none {id : ℕ} {f : Win → Win} {l : List Win}
    (hnodup : (indexedIds l).Nodup) (hfi : ∀ w, (f w).in_index = false) :
    (replaceFirst (fun x => x.id == id && x.in_index) f l).find?
        (fun x => x.id == id && x.in_index) = none := by
  induction l with
  | nil => rfl
  | cons x xs ih =>
    unfold replaceFirst
    by_cases h : (x.id == id && x.in_index) = true
    · rw [if_pos h]
      have hx : x.id = id ∧ x.in_index = true := by simpa using h
      rw [List.find?_cons, show ((f x).id == id && (f x).in_index) = false by simp [hfi x]]
      rw [List.find?_eq_none]
      intro y hy hpy
      have hy2 : y.id = id ∧ y.in_index = true := by simpa using hpy
      have hin : id ∈ indexedIds xs := hy2.1 ▸ mem_indexedIds hy hy2.2
      rw [indexedIds_cons, if_pos hx.2, hx.1] at hnodup
      exact (List.nodup_cons.mp hnodup).1 hin
    · rw [if_neg h]
      rw [List.find?_cons, show (x.id == id && x.in_index) = false from Bool.not_eq_true _ ▸ eq_false_of_ne_true h]
      apply ih
      rw [indexedIds_cons] at hnodup
      by_cases hx : x.in_index
      · rw [if_pos hx] at hnodup
        exact (List.nodup_cons.mp hnodup).2
      · rwa [if_neg hx] at hnodup

theorem replaceFirst_mem_of_find? {p : Win → Bool} {f : Win → Win} {l : List Win} {x : Win}
    (h : l.find? p = some x) : f x ∈ replaceFirst p f l := by
  induction l with
  | nil => simp at h
  | cons a as ih =>
    unfold replaceFirst
    by_cases ha : p a
    · rw [if_pos ha]
      rw [List.find?_cons_of_pos _ ha] at h
      obtain rfl : a = x := by injection h
      exact List.mem_cons_self _ _
    · rw [if_neg ha]
      rw [List.find?_cons_of_neg _ ha] at h
      exact List.mem_cons_of_mem a (ih h)

theorem nodup_filter_id_length {li : List Win}
    (h : (li.map (fun w => w.id)).Nodup) :
    ∀ id ∈ li.map (fun w => w.id), (li.filter (fun w => w.id == id)).length = 1 := by
  induction li with
  | nil => intro id hid; simp at hid
  | cons x xs ih =>
    intro id hid
    rw [List.map_cons, List.nodup_cons] at h
    rcases List.mem_cons.mp hid with rfl | hid2
    · rw [List.filter_cons, if_pos (by simp)]
      have hemp : xs.filter (fun w => w.id == x.id) = [] := by
        rw [List.filter_eq_nil_iff]
        intro w hw hpw
        have hwid : w.id = x.id := by simpa using hpw
        exact h.1 (hwid ▸ List.mem_map_of_mem (fun v => v.id) hw)
      simp [hemp]
    · have hne : x.id ≠ id := by
        intro hcontra
        exact h.1 (hcontra ▸ hid2)
      rw [List.filter_cons, if_neg (by simp [hne])]
      exact ih h.2 id hid2

theorem filter_not_destroying_eq {l : List Win}
    (hall : ∀ w ∈ l, wfNode w = true) (id : ℕ) :
    l.filter (fun w => w.id == id && decide (w.state ≠ WState.DESTROYING))
      = l.filter (fun w => w.id == id && w.in_index) := by
  apply List.filter_congr
  intro w hw
  have hwf := hall w hw
  unfold wfNode at hwf
  rw [beq_iff_eq] at hwf
  rw [hwf]

/-- Claim-form consequence of the invariant: every id the index holds
names exactly one stack node that is not DESTROYING. -/
theorem regInv_unique_not_destroying {reg : Registry} (h : regInv reg) :
    ∀ id ∈ indexedIds reg.stack,
      (reg.stack.filter
          (fun w => w.id == id && decide (w.state ≠ WState.DESTROYING))).length = 1 := by
  intro id hid
  rw [filter_not_destroying_eq h.1, ← List.filter_filter]
  exact nodup_filter_id_length h.2 id hid

theorem regInv_of_sublist {reg : Registry} (h : regInv reg) {l : List Win}
    (hs : l.Sublist reg.stack) : regInv { reg with stack := l } :=
  ⟨fun w hw => h.1 w (hs.subset hw), h.2.sublist (indexedIds_sublist hs)⟩

/-- `add_win` preserves the invariant (X window ids are nonzero). -/
theorem regInv_add_win {reg : Registry} (h : regInv reg) (id prev : ℕ) (io : Bool)
    (hid : id ≠ 0) : regInv (add_win reg id prev io) := by
  obtain ⟨hall, hnodup⟩ := h
  unfold add_win
  by_cases hdup : (find_win reg id).isSome
  · rw [if_pos hdup]; exact ⟨hall, hnodup⟩
  · rw [if_neg hdup]
    have hnotin : id ∉ indexedIds reg.stack := by
      intro hin
      obtain ⟨w, hwmem0, hwid⟩ := List.mem_map.mp hin
      have hwmem := List.mem_filter.mp hwmem0
      apply hdup
      unfold find_win
      rw [if_neg hid, List.find?_isSome]
      exact ⟨w, hwmem.1, by simp [hwid, hwmem.2]⟩
    have hfresh_wf : wfNode (freshWin id io) = true := rfl
    have hfresh_cons : ∀ l, indexedIds (freshWin id io :: l) = id :: indexedIds l := by
      intro l
      rw [indexedIds_cons]
      rfl
    by_cases hprev : prev = 0
    · rw [if_pos hprev]
      refine ⟨?_, ?_⟩
      · intro w hw
        rcases List.mem_cons.mp hw with rfl | hw
        · exact hfresh_wf
        · exact hall w hw
      · rw [hfresh_cons]
        exact List.nodup_cons.mpr ⟨hnotin, hnodup⟩
    · rw [if_neg hprev]
      by_cases hp2 : (find_win reg prev).isSome
      · rw [if_pos hp2]
        have hperm := insertBeforeFirst_perm
          (fun w => w.id == prev && w.in_index) (freshWin id io) reg.stack
        refine ⟨?_, ?_⟩
        · intro w hw
          rcases List.mem_cons.mp (hperm.mem_iff.mp hw) with rfl | hw2
          · exact hfresh_wf
          · exact hall w hw2
        · rw [(indexedIds_perm hperm).nodup_iff, hfresh_cons]
          exact List.nodup_cons.mpr ⟨hnotin, hnodup⟩
      · rw [if_neg hp2]; exact ⟨hall, hnodup⟩

/-- `unmap_win` preserves the invariant for both unmapping and destroy. -/
theorem regInv_unmap_win {reg : Registry} (h : regInv reg) (id : ℕ) (d : Bool) :
    regInv (unmap_win reg id d) := by
  obtain ⟨hall, hnodup⟩ := h
  unfold unmap_win
  cases hf : find_win reg id with
  | none => exact ⟨hall, hnodup⟩
  | some w =>
    dsimp only
    by_cases h1 : ¬(d = true) ∧ w.input_only = true
    · rw [if_pos h1]; exact ⟨hall, hnodup⟩
    · rw [if_neg h1]
      by_cases h2 : w.state = (if d = true then WState.DESTROYING else WState.UNMAPPING)
      · rw [if_pos h2]; exact ⟨hall, hnodup⟩
      · rw [if_neg h2]
        by_cases h3 : w.state = WState.UNMAPPED ∨ w.input_only = true
        · rw [if_pos h3]
          by_cases h4 : ¬(d = true)
          · rw [if_pos h4]; exact ⟨hall, hnodup⟩
          · rw [if_neg h4]
            exact regInv_of_sublist ⟨hall, hnodup⟩ (List.eraseP_sublist _)
        · rw [if_neg h3]
          by_cases h5 : reg.redirected = true
          · rw [if_pos h5]
            by_cases h6 : d = true
            · rw [if_pos h6]
              refine ⟨replaceFirst_wf hall ?_, hnodup.sublist ?_⟩
              · exact fun v _ _ => rfl
              · apply replaceFirst_indexedIds_sublist
                exact fun v => rfl
            · rw [if_neg h6]
              refine ⟨?_, ?_⟩
              · refine replaceFirst_wf hall ?_
                intro v hv _
                have hvin : v.in_index = true := by
                  simp only [Bool.and_eq_true, beq_iff_eq] at hv
                  exact hv.2
                unfold wfNode
                simp [hvin]
              · rw [replaceFirst_indexedIds_eq]
                · exact hnodup
                · exact fun v => ⟨rfl, rfl⟩
          · rw [if_neg h5]
            by_cases h6 : d = true
            · rw [if_pos h6]
              exact regInv_of_sublist ⟨hall, hnodup⟩ (List.eraseP_sublist _)
            · rw [if_neg h6]
              refine ⟨?_, ?_⟩
              · refine replaceFirst_wf hall ?_
                intro v hv _
                have hvin : v.in_index = true := by
                  simp only [Bool.and_eq_true, beq_iff_eq] at hv
                  exact hv.2
                unfold wfNode
                simp [hvin]
              · rw [replaceFirst_indexedIds_eq]
                · exact hnodup
                · exact fun v => ⟨rfl, rfl⟩

/-- `map_win` preserves the invariant. -/
theorem regInv_map_win {reg : Registry} (h : regInv reg) (id : ℕ) (tgt : ℚ) :
    regInv (map_win reg id tgt) := by
  obtain ⟨hall, hnodup⟩ := h
  unfold map_win
  cases hf : find_win reg id with
  | none => exact ⟨hall, hnodup⟩
  | some w =>
    dsimp only
    by_cases h1 : w.input_only = true
    · rw [if_pos h1]; exact ⟨hall, hnodup⟩
    · rw [if_neg h1]
      by_cases h2 : ¬(w.state = WState.UNMAPPED ∨ w.state = WState.UNMAPPING)
      · rw [if_pos h2]; exact ⟨hall, hnodup⟩
      · rw [if_neg h2]
        have hbranch : ∀ f : Win → Win,
            (∀ v, (f v).id = v.id ∧ (f v).in_index = v.in_index) →
            (∀ v, (f v).state ≠ WState.DESTROYING) →
            regInv { reg with
              stack := replaceFirst (fun x => x.id == id && x.in_index) f reg.stack } := by
          intro f hpres hst
          refine ⟨?_, ?_⟩
          · refine replaceFirst_wf hall ?_
            intro v hv _
            have hvin : v.in_index = true := by
              simp only [Bool.and_eq_true, beq_iff_eq] at hv
              exact hv.2
            unfold wfNode
            rw [(hpres v).2, hvin]
            simp [hst v]
          · rw [replaceFirst_indexedIds_eq _ hpres]
            exact hnodup
        by_cases h3 : reg.redirected = true
        · rw [if_pos h3]
          exact hbranch _ (fun v => ⟨rfl, rfl⟩) (fun v => by simp)
        · rw [if_neg h3]
          exact hbranch _ (fun v => ⟨rfl, rfl⟩) (fun v => by simp)

/-- `win_check_fade_finished` preserves the invariant at any position. -/
theorem regInv_check_fade {reg : Registry} (h : regInv reg) (i : ℕ) :
    regInv (check_fade_finished_at reg i) := by
  obtain ⟨hall, hnodup⟩ := h
  unfold check_fade_finished_at
  cases hg : reg.stack.get? i with
  | none => exact ⟨hall, hnodup⟩
  | some w =>
    dsimp only
    by_cases h1 : w.state = WState.MAPPED ∨ w.state = WState.UNMAPPED
    · rw [if_pos h1]; exact ⟨hall, hnodup⟩
    · rw [if_neg h1]
      by_cases h2 : w.opacity = w.opacity_tgt
      · rw [if_pos h2]
        have hmod : ∀ st : WState, st ≠ WState.DESTROYING → w.state ≠ WState.DESTROYING →
            regInv { reg with
              stack := modifyIdx (fun x => { x with state := st }) i reg.stack } := by
          intro st hstne hwnd
          refine ⟨?_, ?_⟩
          · refine modifyIdx_wf hall ?_
            intro x hx hxwf
            rw [hg] at hx
            injection hx with hx
            subst hx
            have hxin : w.in_index = true := by
              unfold wfNode at hxwf
              rw [beq_iff_eq] at hxwf
              rw [hxwf]
              simp [hwnd]
            simp [wfNode, hxin, hstne]
          · rw [modifyIdx_indexedIds_eq]
            · exact hnodup
            · exact fun v => ⟨rfl, rfl⟩
        cases hst : w.state with
        | UNMAPPED => exact ⟨hall, hnodup⟩
        | MAPPED => exact ⟨hall, hnodup⟩
        | UNMAPPING => exact hmod WState.UNMAPPED (by simp) (by simp [hst])
        | DESTROYING => exact regInv_of_sublist ⟨hall, hnodup⟩ (removeIdx_sublist _ _)
        | MAPPING => exact hmod WState.MAPPED (by simp) (by simp [hst])
        | FADING => exact hmod WState.MAPPED (by simp) (by simp [hst])
      · rw [if_neg h2]; exact ⟨hall, hnodup⟩

/-- Destroy mid-fade: with redirection on, destroying a mapped/fading
window removes its id from the index at once, leaves the node in the
stack as DESTROYING, and a subsequent `add_win` of the same id yields a
fresh window with the initial (UNMAPPED, zero-opacity) state. -/
theorem unmap_destroy_midfade {reg : Registry} (hInv : regInv reg) {id : ℕ} {w : Win}
    (hf : find_win reg id = some w) (hio : w.input_only = false)
    (hst : w.state ≠ WState.UNMAPPED) (hred : reg.redirected = true) :
    find_win (unmap_win reg id true) id = none
      ∧ (∃ w2 ∈ (unmap_win reg id true).stack, w2.id = id ∧ w2.state = WState.DESTROYING)
      ∧ ∀ io, find_win (add_win (unmap_win reg id true) id 0 io) id
          = some (freshWin id io) := by
  obtain ⟨hall, hnodup⟩ := hInv
  have hid0 : id ≠ 0 := by
    intro h0
    rw [h0] at hf
    unfold find_win at hf
    simp at hf
  have hfind : reg.stack.find? (fun x => x.id == id && x.in_index) = some w := by
    unfold find_win at hf
    rwa [if_neg hid0] at hf
  have hwmem : w ∈ reg.stack := List.mem_of_find?_eq_some hfind
  have hwp := List.find?_some hfind
  have hwid : w.id = id := by simp at hwp; exact hwp.1
  have hwin : w.in_index = true := by simp at hwp; exact hwp.2
  have hwnd : w.state ≠ WState.DESTROYING := by
    have hwf := hall w hwmem
    unfold wfNode at hwf
    rw [beq_iff_eq, hwin] at hwf
    intro hcontra
    rw [hcontra] at hwf
    simp at hwf
  have hstack : unmap_win reg id true = { reg with stack :=
      (replaceFirst (fun x => x.id == id && x.in_index)
        (fun x => { x with in_index := false, state := WState.DESTROYING, opacity_tgt := 0 })
        reg.stack) } := by
    unfold unmap_win
    rw [hf]
    dsimp only
    rw [if_neg (by simp)]
    rw [if_neg (by simpa using hwnd)]
    rw [if_neg (by simp [hio, hst])]
    rw [if_pos hred, if_pos rfl]
  rw [hstack]
  have hfw : find_win { reg with stack :=
      (replaceFirst (fun x => x.id == id && x.in_index)
        (fun x => { x with in_index := false, state := WState.DESTROYING, opacity_tgt := 0 })
        reg.stack) } id = none := by
    unfold find_win
    rw [if_neg hid0]
    exact find?_replaceFirst_none hnodup (fun v => rfl)
  refine ⟨hfw, ?_, ?_⟩
  · exact ⟨_, replaceFirst_mem_of_find? hfind, hwid, rfl⟩
  · intro io
    unfold add_win
    rw [hfw]
    rw [if_neg (by simp)]
    rw [if_pos rfl]
    unfold find_win
    rw [if_neg hid0]
    dsimp only
    rw [List.find?_cons, show ((freshWin id io).id == id && (freshWin id io).in_index) = true by
      simp [freshWin, win_def]]

/-- Claim C3: the registry invariant — every id in the id-index names
exactly one stack node and that node is not DESTROYING — is preserved by
window creation, mapping, unmapping, destruction and fade completion; and
a destroy arriving mid-fade removes the id-index entry at once while the
node stays in the stack as DESTROYING until its fade completes, so a new
window created with the same id gets fresh, independent state. -/
theorem stack_index_invariant (reg : Registry) (hInv : regInv reg) :
    (∀ id prev io, id ≠ 0 → regInv (add_win reg id prev io))
      ∧ (∀ id d, regInv (unmap_win reg id d))
      ∧ (∀ id tgt, regInv (map_win reg id tgt))
      ∧ (∀ i, regInv (check_fade_finished_at reg i))
      ∧ (∀ id ∈ indexedIds reg.stack,
          (reg.stack.filter
            (fun w => w.id == id && decide (w.state ≠ WState.DESTROYING))).length = 1)
      ∧ (∀ id w, find_win reg id = some w → w.input_only = false →
          w.state ≠ WState.UNMAPPED → reg.redirected = true →
          find_win (unmap_win reg id true) id = none
            ∧ (∃ w2 ∈ (unmap_win reg id true).stack,
                w2.id = id ∧ w2.state = WState.DESTROYING)
            ∧ ∀ io, find_win (add_win (unmap_win reg id true) id 0 io) id
                = some (freshWin id io)) :=
  ⟨fun id prev io hid => regInv_add_win hInv id prev io hid,
    fun id d => regInv_unmap_win hInv id d,
    fun id tgt => regInv_map_win hInv id tgt,
    fun i => regInv_check_fade hInv i,
    regInv_unique_not_destroying hInv,
    fun _ _ hf hio hst hred => unmap_destroy_midfade ⟨hInv.1, hInv.2⟩ hf hio hst hred⟩

instance (reg : Registry) : Decidable (regInv reg) :=
  inferInstanceAs (Decidable ((∀ w ∈ reg.stack, wfNode w = true)
    ∧ (indexedIds reg.stack).Nodup))

/-- A window fading in (id 3) above a window already destroyed mid-fade
(id 5, out of the index), with the screen redirected. -/
def witnessReg : Registry :=
  ⟨[{ win_def with id := 3, state := WState.FADING, opacity_tgt := 1 },
    { win_def with id := 5, state := WState.DESTROYING, in_index := false }], true⟩

/-- Witness for claim C3 on a concrete registry: destroying the fading
window 3 keeps the invariant, empties its index entry while the node
remains, and a recreated window 3 starts fresh. -/
theorem stack_index_invariant_witness :
    regInv witnessReg
      ∧ regInv (unmap_win witnessReg 3 true)
      ∧ find_win (unmap_win witnessReg 3 true) 3 = none
      ∧ (∃ w2 ∈ (unmap_win witnessReg 3 true).stack,
          w2.id = 3 ∧ w2.state = WState.DESTROYING)
      ∧ find_win (add_win (unmap_win witnessReg 3 true) 3 0 false) 3
          = some (freshWin 3 false) := by
  have h := stack_index_invariant witnessReg (by decide)
  have hmid := h.2.2.2.2.2 3
    { win_def with id := 3, state := WState.FADING, opacity_tgt := 1 }
    (by decide) (by decide) (by decide) (by decide)
  exact ⟨by decide, h.2.1 3 true, hmid.1, hmid.2.1, hmid.2.2 false⟩

end Compton
